import Mathlib

/-!
Shallow embedding of the localdns record store, loader and resolver.

Rust strings are modelled as lists of characters (`Str`); `str::to_lowercase`
is modelled on the ASCII subset via `Char.toLower`, matching the domain-name
data handled by the program.  IPv4 addresses are modelled by their numeric
value (a `Nat`), which gives exactly the ascending numeric order that
`Ipv4Addr`'s `Ord` instance uses.  The external collaborators (the serde JSON
decoder for the DHCP lease file and the `Ipv4Addr` string parser) are passed
in as function arguments; the wire-format codec is out of scope, so the
resolver is modelled from the parsed request onwards.
-/

/-- Rust `String` / `&str`, as a list of characters. -/
abbrev Str := List Char

/-- Rust `Ipv4Addr`, by its numeric (big-endian `u32`) value. -/
abbrev Ipv4 := Nat

/-- Model of `str::to_lowercase` (ASCII subset). -/
def strLower (s : Str) : Str := s.map Char.toLower

/-- Model of `str::starts_with(c)` for a single character. -/
def startsWithChar (c : Char) (s : Str) : Bool :=
  match s with
  | [] => false
  | a :: _ => a = c

/-- Model of `str::ends_with(c)` for a single character. -/
def endsWithChar (c : Char) (s : Str) : Bool :=
  match s.reverse with
  | [] => false
  | a :: _ => a = c

/-- Model of `str::trim`. -/
def trimStr (s : Str) : Str :=
  ((s.dropWhile Char.isWhitespace).reverse.dropWhile Char.isWhitespace).reverse

/-- Model of `str::trim_end_matches('.')`: remove every trailing dot. -/
def trimEndDots (s : Str) : Str :=
  (s.reverse.dropWhile (fun c => c = '.')).reverse

/-- Split a string at every occurrence of the character `c`.
`str::lines` additionally drops a final empty segment and a trailing
carriage return; both differences are invisible to the loader, which trims
every line and skips empty ones. -/
def splitOnChar (c : Char) : Str → List Str
  | [] => [[]]
  | a :: rest =>
    let r := splitOnChar c rest
    if a = c then [] :: r
    else
      match r with
      | [] => [[a]]
      | x :: xs => (a :: x) :: xs

/-- Accumulator loop for `splitWs`; `cur` holds the current word reversed. -/
def splitWsAux (cur : Str) : Str → List Str
  | [] => if cur = [] then [] else [cur.reverse]
  | a :: rest =>
    if a.isWhitespace then
      if cur = [] then splitWsAux [] rest
      else cur.reverse :: splitWsAux [] rest
    else splitWsAux (a :: cur) rest

/-- Model of `str::split_whitespace` collected into a vector. -/
def splitWs (s : Str) : List Str := splitWsAux [] s

/-- Insert into a sorted list; helper for `sortIps`. -/
def insertIp (x : Ipv4) : List Ipv4 → List Ipv4
  | [] => [x]
  | y :: ys => if x ≤ y then x :: y :: ys else y :: insertIp x ys

/-- Model of `Vec::sort` / `Vec::sort_unstable` on addresses (the result of
any comparison sort of naturals is the unique sorted permutation). -/
def sortIps : List Ipv4 → List Ipv4
  | [] => []
  | x :: xs => insertIp x (sortIps xs)

/-- Model of `Vec::dedup`: collapse runs of consecutive equal elements. -/
def dedupAdjacent : List Ipv4 → List Ipv4
  | [] => []
  | [x] => [x]
  | x :: y :: rest =>
    if x = y then dedupAdjacent (y :: rest) else x :: dedupAdjacent (y :: rest)

/-- The record types the server distinguishes: `A` versus everything else. -/
inductive RecordType
  | A
  | AAAA
  | NS
  | CNAME
  | MX
  | TXT
deriving DecidableEq

/-- The response codes the server emits. -/
inductive ResponseCode
  | NoError
  | NXDomain
  | FormErr
deriving DecidableEq

/-- `loader::DnsCache`: the record store.  The `HashMap` of exact matches is
modelled as an association list with unique keys. -/
structure DnsCache where
  exact_matches : List (Str × List Ipv4)
  wildcards : List (Str × Ipv4)
deriving DecidableEq

/-- Model of `HashMap::get` on the association list. -/
def lookupExact (m : List (Str × List Ipv4)) (k : Str) : Option (List Ipv4) :=
  match m with
  | [] => none
  | kv :: rest => if kv.1 = k then some kv.2 else lookupExact rest k

/-- The per-entry wildcard test from `handle_query`: the pattern must start
with the two characters `*` `.`, and the lowercased query name must end with
the pattern minus that two-character lead and be strictly longer than it. -/
def wildcardMatch (lookup_name p : Str) : Bool :=
  if List.isPrefixOf ('*' :: '.' :: []) p then
    let root_domain := p.drop 2
    root_domain.isSuffixOf lookup_name && decide (root_domain.length < lookup_name.length)
  else false

/-- The wildcard loop of the `A` branch of `handle_query`: push the address
of every matching entry, in store order. -/
def wildcardIps (lookup_name : Str) (ws : List (Str × Ipv4)) : List Ipv4 :=
  match ws with
  | [] => []
  | e :: rest =>
    if wildcardMatch lookup_name e.1 then e.2 :: wildcardIps lookup_name rest
    else wildcardIps lookup_name rest

/-- The exact-match seed of the `A` branch (`found_ips.extend`). -/
def exactIps (lookup_name : Str) (cache : DnsCache) : List Ipv4 :=
  match lookupExact cache.exact_matches lookup_name with
  | some ips => ips
  | none => []

/-- The merged result list of the `A` branch before sorting and dedup. -/
def foundIps (lookup_name : Str) (cache : DnsCache) : List Ipv4 :=
  exactIps lookup_name cache ++ wildcardIps lookup_name cache.wildcards

/-- One emitted resource record (`Record::with` plus `set_data`). -/
structure DnsRecord where
  name : Str
  rtype : RecordType
  ttl : Nat
  rdata : Ipv4
deriving DecidableEq

/-- The `A` branch of `handle_query`: sort, dedup, then emit one address
record per address over the original (non-lowercased) query name with the
literal TTL 60 from the source. -/
def resolveA (name lookup_name : Str) (cache : DnsCache) : ResponseCode × List DnsRecord :=
  let found := foundIps lookup_name cache
  if found = [] then
    (ResponseCode.NXDomain, [])
  else
    (ResponseCode.NoError,
      (dedupAdjacent (sortIps found)).map
        (fun ip => { name := name, rtype := RecordType.A, ttl := 60, rdata := ip }))

/-- The wildcard existence loop of the non-`A` branch (with early `break`). -/
def wildcardFound (lookup_name : Str) (ws : List (Str × Ipv4)) : Bool :=
  match ws with
  | [] => false
  | e :: rest =>
    if wildcardMatch lookup_name e.1 then true else wildcardFound lookup_name rest

/-- The non-`A` branch of `handle_query`: existence only, never any answer. -/
def resolveOther (lookup_name : Str) (cache : DnsCache) : ResponseCode × List DnsRecord :=
  if (lookupExact cache.exact_matches lookup_name).isSome then (ResponseCode.NoError, [])
  else if wildcardFound lookup_name cache.wildcards then (ResponseCode.NoError, [])
  else (ResponseCode.NXDomain, [])

/-- One parsed question (`hickory_proto::op::Query`). -/
structure Query where
  name : Str
  qtype : RecordType
deriving DecidableEq

/-- Resolution of a single question: lowercase the name, then branch on the
query type exactly as `handle_query` does. -/
def handleQuestion (q : Query) (cache : DnsCache) : ResponseCode × List DnsRecord :=
  let lookup_name := strLower q.name
  if q.qtype = RecordType.A then resolveA q.name lookup_name cache
  else resolveOther lookup_name cache

/-- A parsed incoming message, as produced by the external codec. -/
structure DnsMessage where
  id : Nat
  opcode : Nat
  rd : Bool
  queries : List Query
deriving DecidableEq

/-- The response assembled by `handle_query` before serialization. -/
structure DnsResponse where
  id : Nat
  opcode : Nat
  rd : Bool
  ra : Bool
  queries : List Query
  rcode : ResponseCode
  answers : List DnsRecord
deriving DecidableEq

/-- `handle_query` from the parsed request to the assembled response: echo
the header fields, consult only `queries().first()`, echo that question, and
answer `FormErr` when the message carries no question. -/
def handle_query (req : DnsMessage) (cache : DnsCache) : DnsResponse :=
  match req.queries with
  | [] =>
    { id := req.id, opcode := req.opcode, rd := req.rd, ra := true,
      queries := [], rcode := ResponseCode.FormErr, answers := [] }
  | q :: _ =>
    let r := handleQuestion q cache
    { id := req.id, opcode := req.opcode, rd := req.rd, ra := true,
      queries := [q], rcode := r.1, answers := r.2 }

/-- `config::Config` (`config.rs`). -/
structure Config where
  listen_address : Str
  listen_port : Nat
  dhcp_lease_file : Str
  hosts_file : Str
  domain_suffix : Str
  ttl : Nat
  fallback_ip : Option Ipv4

/-- `config::default_ttl`. -/
def default_ttl : Nat := 60

/-- The four octets of a lease's `Address` field. -/
structure Octets where
  a : Nat
  b : Nat
  c : Nat
  d : Nat
deriving DecidableEq

/-- `Ipv4Addr::new` on the four octets. -/
def ipOfOctets (o : Octets) : Ipv4 :=
  ((o.a * 256 + o.b) * 256 + o.c) * 256 + o.d

/-- `loader::DhcpLease`. -/
structure DhcpLease where
  address : Octets
  hostname : Str
deriving DecidableEq

/-- `loader::DhcpData`. -/
structure DhcpData where
  leases : List DhcpLease
deriving DecidableEq

/-- State of a source file on disk: absent, present but unreadable as a
string (I/O failure or invalid UTF-8), or present with readable content. -/
inductive FileState
  | absent
  | unreadable
  | content (s : Str)
deriving DecidableEq

/-- Model of `Path::exists`. -/
def fileExists : FileState → Bool
  | FileState.absent => false
  | FileState.unreadable => true
  | FileState.content _ => true

def readErrMsg : String := "read failure"

def notFoundMsg : String := "No such file"

/-- Model of `fs::read_to_string`. -/
def readToString : FileState → Except String Str
  | FileState.absent => Except.error notFoundMsg
  | FileState.unreadable => Except.error readErrMsg
  | FileState.content s => Except.ok s

def dhcpReadErr : String := "Failed to read DHCP file"

def hostsReadErr : String := "Failed to read Hosts file"

/-- The suffix normalization of `load_records`: prefix a dot unless the
suffix is empty or already starts with one. -/
def safe_suffix (suffix : Str) : Str :=
  if startsWithChar '.' suffix || suffix = [] then suffix else '.' :: suffix

/-- The exact FQDN a lease contributes:
`format!("{}{}.", hostname, safe_suffix).to_lowercase()`. -/
def leaseFqdn (hostname suffix : Str) : Str :=
  strLower (hostname ++ safe_suffix suffix ++ ['.'])

/-- The wildcard pattern a lease contributes:
`format!("*.{}.", fqdn.trim_end_matches('.'))`. -/
def leaseWildcard (fqdn : Str) : Str :=
  '*' :: '.' :: (trimEndDots fqdn ++ ['.'])

/-- `exact_records_temp.entry(k).or_default().insert(ip)`: association-list
update with `HashSet` (no-duplicate) insertion semantics. -/
def insertExact (m : List (Str × List Ipv4)) (k : Str) (ip : Ipv4) :
    List (Str × List Ipv4) :=
  match m with
  | [] => [(k, [ip])]
  | kv :: rest =>
    if kv.1 = k then (kv.1, if ip ∈ kv.2 then kv.2 else kv.2 ++ [ip]) :: rest
    else kv :: insertExact rest k ip

/-- The lease loop of `load_records`: skip empty hostnames, insert the exact
FQDN, and push the derived wildcard pattern. -/
def dhcpFold (suffix : Str) (leases : List DhcpLease)
    (temp : List (Str × List Ipv4)) (ws : List (Str × Ipv4)) :
    List (Str × List Ipv4) × List (Str × Ipv4) :=
  match leases with
  | [] => (temp, ws)
  | lease :: rest =>
    if lease.hostname = [] then dhcpFold suffix rest temp ws
    else
      let ip := ipOfOctets lease.address
      let fqdn := leaseFqdn lease.hostname suffix
      dhcpFold suffix rest (insertExact temp fqdn ip) (ws ++ [(leaseWildcard fqdn, ip)])

/-- The DHCP section of `load_records`: a missing file or unparseable JSON
contributes nothing (with a logged warning); a present file that cannot be
read as a string propagates the error. -/
def dhcpSection (parseDhcp : Str → Except String DhcpData)
    (dhcp_path : FileState) (suffix : Str) :
    Except String (List (Str × List Ipv4) × List (Str × Ipv4)) :=
  if fileExists dhcp_path then
    match readToString dhcp_path with
    | Except.error _ => Except.error dhcpReadErr
    | Except.ok content =>
      if trimStr content = [] then Except.ok ([], [])
      else
        match parseDhcp content with
        | Except.ok data => Except.ok (dhcpFold suffix data.leases [] [])
        | Except.error _ => Except.ok ([], [])
  else Except.ok ([], [])

/-- The inner hostname loop of the hosts section: `break` on a `#` word,
normalize to lowercase with a trailing dot, and route `*.`-led names to the
wildcard list. -/
def hostsProcessNames (ip : Ipv4) (names : List Str)
    (temp : List (Str × List Ipv4)) (ws : List (Str × Ipv4)) :
    List (Str × List Ipv4) × List (Str × Ipv4) :=
  match names with
  | [] => (temp, ws)
  | h :: rest =>
    if startsWithChar '#' h then (temp, ws)
    else
      let d0 := strLower h
      let domain := if endsWithChar '.' d0 then d0 else d0 ++ ['.']
      if List.isPrefixOf ('*' :: '.' :: []) domain then
        hostsProcessNames ip rest temp (ws ++ [(domain, ip)])
      else
        hostsProcessNames ip rest (insertExact temp domain ip) ws

/-- The line loop of the hosts section: trim, skip blanks and comments,
require at least two whitespace-separated columns, and skip lines whose
first column does not parse as an IPv4 address. -/
def hostsFold (parseIp : Str → Option Ipv4) (ls : List Str)
    (temp : List (Str × List Ipv4)) (ws : List (Str × Ipv4)) :
    List (Str × List Ipv4) × List (Str × Ipv4) :=
  match ls with
  | [] => (temp, ws)
  | line :: rest =>
    let t := trimStr line
    if t = [] || startsWithChar '#' t then hostsFold parseIp rest temp ws
    else
      match splitWs t with
      | p0 :: p1 :: ptail =>
        match parseIp p0 with
        | some ip =>
          let tw := hostsProcessNames ip (p1 :: ptail) temp ws
          hostsFold parseIp rest tw.1 tw.2
        | none => hostsFold parseIp rest temp ws
      | _ => hostsFold parseIp rest temp ws

/-- Final conversion of `load_records`: each exact set becomes a sorted
vector (the `HashSet` already guarantees no duplicates). -/
def finalize (temp : List (Str × List Ipv4)) (ws : List (Str × Ipv4)) : DnsCache :=
  { exact_matches := temp.map (fun kv => (kv.1, sortIps kv.2)), wildcards := ws }

/-- The hosts section of `load_records` followed by the final conversion. -/
def hostsSection (parseIp : Str → Option Ipv4) (hosts_path : FileState)
    (temp : List (Str × List Ipv4)) (ws : List (Str × Ipv4)) :
    Except String DnsCache :=
  if fileExists hosts_path then
    match readToString hosts_path with
    | Except.error _ => Except.error hostsReadErr
    | Except.ok content =>
      let tw := hostsFold parseIp (splitOnChar '\n' content) temp ws
      Except.ok (finalize tw.1 tw.2)
  else Except.ok (finalize temp ws)

/-- `loader::load_records`, with the external serde JSON decoder and the
external `Ipv4Addr` string parser passed in as collaborators. -/
def load_records (parseDhcp : Str → Except String DhcpData)
    (parseIp : Str → Option Ipv4)
    (dhcp_path hosts_path : FileState) (suffix : Str) : Except String DnsCache :=
  match dhcpSection parseDhcp dhcp_path suffix with
  | Except.error e => Except.error e
  | Except.ok tw => hostsSection parseIp hosts_path tw.1 tw.2

/-- `Except.isOk`, spelled out. -/
def exceptIsOk {ε α : Type} : Except ε α → Bool
  | Except.ok _ => true
  | Except.error _ => false

/-- The wildcard loop of the `A` branch with the `starts_with("*.")` guard
removed (used to state that the guard never excludes a store-built entry). -/
def wildcardIpsNoGuard (lookup_name : Str) (ws : List (Str × Ipv4)) : List Ipv4 :=
  match ws with
  | [] => []
  | e :: rest =>
    if (e.1.drop 2).isSuffixOf lookup_name && decide ((e.1.drop 2).length < lookup_name.length)
    then e.2 :: wildcardIpsNoGuard lookup_name rest
    else wildcardIpsNoGuard lookup_name rest

/-- The shape every store-built wildcard entry has: a pattern led by the two
characters `*` `.` and ended by a dot. -/
def wildShape (e : Str × Ipv4) : Prop :=
  List.isPrefixOf ('*' :: '.' :: []) e.1 = true ∧ endsWithChar '.' e.1 = true

/-! Concrete inputs used by witnesses and counterexamples. -/

/-- A serde decoder stub that always reports a JSON error. -/
def parseDhcpNone : Str → Except String DhcpData := fun _ => Except.error readErrMsg

/-- An address parser stub that never recognizes an address. -/
def parseIpNone : Str → Option Ipv4 := fun _ => none

def hostLanDot : Str := "host.lan.".data

def printerStr : Str := "printer".data

def lanLower : Str := "lan".data

def lanUpper : Str := "LAN".data

def printerLanDot : Str := "printer.lan.".data

def starPrinterLanDot : Str := "*.printer.lan.".data

def exampleComDot : Str := "example.com.".data

def fooExampleComDot : Str := "foo.example.com.".data

def nomatchLanDot : Str := "nomatch.lan.".data

def ipHost : Ipv4 := ipOfOctets { a := 10, b := 0, c := 0, d := 1 }

def ipWild : Ipv4 := ipOfOctets { a := 10, b := 0, c := 0, d := 9 }

def fbIp : Ipv4 := ipOfOctets { a := 192, b := 168, c := 1, d := 1 }

def cfgC1 : Config :=
  { listen_address := [], listen_port := 53, dhcp_lease_file := [],
    hosts_file := [], domain_suffix := lanLower, ttl := 300, fallback_ip := none }

def cfgC2 : Config :=
  { listen_address := [], listen_port := 53, dhcp_lease_file := [],
    hosts_file := [], domain_suffix := lanLower, ttl := default_ttl,
    fallback_ip := some fbIp }

def cacheHost : DnsCache :=
  { exact_matches := [(hostLanDot, [ipHost])], wildcards := [] }

def emptyCache : DnsCache := { exact_matches := [], wildcards := [] }

def qHostA : Query := { name := hostLanDot, qtype := RecordType.A }

def qHostAAAA : Query := { name := hostLanDot, qtype := RecordType.AAAA }

def qNomatchA : Query := { name := nomatchLanDot, qtype := RecordType.A }

def ipStr1009 : Str := "10.0.0.9".data

def hostsLineWild : Str := "10.0.0.9 *.example.com".data

def starExampleComDot : Str := "*.example.com.".data

/-- An address parser stub that recognizes exactly the text `10.0.0.9`. -/
def parseIpOne : Str → Option Ipv4 :=
  fun s => if s = ipStr1009 then some ipWild else none

/-- The store built from the single hosts line `10.0.0.9 *.example.com`. -/
def cacheWildOnly : DnsCache :=
  { exact_matches := [], wildcards := [(starExampleComDot, ipWild)] }

/-! Helper lemmas. -/

theorem mem_insertIp (x a : Ipv4) (l : List Ipv4) :
    x ∈ insertIp a l ↔ x = a ∨ x ∈ l := by
  induction l with
  | nil => simp [insertIp]
  | cons y ys ih =>
    by_cases h : a ≤ y
    · simp only [insertIp, if_pos h, List.mem_cons]
    · simp only [insertIp, if_neg h, List.mem_cons, ih]
      tauto

theorem sorted_insertIp (a : Ipv4) (l : List Ipv4)
    (h : l.Sorted (· ≤ ·)) : (insertIp a l).Sorted (· ≤ ·) := by
  induction l with
  | nil => simp [insertIp]
  | cons y ys ih =>
    rw [List.sorted_cons] at h
    by_cases hay : a ≤ y
    · rw [insertIp, if_pos hay, List.sorted_cons]
      refine ⟨?_, ?_⟩
      · intro b hb
        rcases List.mem_cons.mp hb with hb | hb
        · exact hb ▸ hay
        · exact le_trans hay (h.1 b hb)
      · rw [List.sorted_cons]
        exact h
    · rw [insertIp, if_neg hay, List.sorted_cons]
      refine ⟨?_, ih h.2⟩
      intro b hb
      rcases (mem_insertIp b a ys).mp hb with hb | hb
      · exact hb ▸ Nat.le_of_not_le hay
      · exact h.1 b hb

theorem mem_sortIps (x : Ipv4) (l : List Ipv4) : x ∈ sortIps l ↔ x ∈ l := by
  induction l with
  | nil => simp [sortIps]
  | cons y ys ih => simp [sortIps, mem_insertIp, ih]

theorem sorted_sortIps (l : List Ipv4) : (sortIps l).Sorted (· ≤ ·) := by
  induction l with
  | nil => simp [sortIps]
  | cons y ys ih => exact sorted_insertIp y (sortIps ys) ih

theorem sortIps_ne_nil (l : List Ipv4) (h : l ≠ []) : sortIps l ≠ [] := by
  cases l with
  | nil => exact absurd rfl h
  | cons y ys =>
    rw [sortIps]
    cases hs : sortIps ys with
    | nil => simp [insertIp]
    | cons z zs =>
      rw [insertIp]
      by_cases hz : y ≤ z <;> simp [hz]

theorem mem_dedupAdjacent (x : Ipv4) (l : List Ipv4) :
    x ∈ dedupAdjacent l ↔ x ∈ l := by
  induction l with
  | nil => simp [dedupAdjacent]
  | cons y ys ih =>
    cases ys with
    | nil => simp [dedupAdjacent]
    | cons z zs =>
      by_cases hyz : y = z
      · subst hyz
        rw [dedupAdjacent, if_pos rfl]
        rw [ih]
        simp only [List.mem_cons]
        tauto
      · rw [dedupAdjacent, if_neg hyz]
        simp only [List.mem_cons] at ih ⊢
        rw [ih]

theorem sorted_lt_dedupAdjacent (l : List Ipv4) (h : l.Sorted (· ≤ ·)) :
    (dedupAdjacent l).Sorted (· < ·) := by
  induction l with
  | nil => simp [dedupAdjacent]
  | cons y ys ih =>
    cases ys with
    | nil => simp [dedupAdjacent]
    | cons z zs =>
      rw [List.sorted_cons] at h
      by_cases hyz : y = z
      · rw [dedupAdjacent, if_pos hyz]
        exact ih h.2
      · rw [dedupAdjacent, if_neg hyz, List.sorted_cons]
        refine ⟨?_, ih h.2⟩
        intro b hb
        rw [mem_dedupAdjacent] at hb
        have hyzle : y ≤ z := h.1 z (List.mem_cons_self z zs)
        have hylt : y < z := Nat.lt_of_le_of_ne hyzle hyz
        rcases List.mem_cons.mp hb with hb | hb
        · exact hb ▸ hylt
        · have hzb : z ≤ b := (List.sorted_cons.mp h.2).1 b hb
          exact Nat.lt_of_lt_of_le hylt hzb

theorem dedupAdjacent_ne_nil (l : List Ipv4) (h : l ≠ []) :
    dedupAdjacent l ≠ [] := by
  induction l with
  | nil => exact absurd rfl h
  | cons y ys ih =>
    cases ys with
    | nil => simp [dedupAdjacent]
    | cons z zs =>
      by_cases hyz : y = z
      · rw [dedupAdjacent, if_pos hyz]
        exact ih (List.cons_ne_nil z zs)
      · rw [dedupAdjacent, if_neg hyz]
        exact List.cons_ne_nil y _

theorem wildcardFound_iff (n : Str) (ws : List (Str × Ipv4)) :
    wildcardFound n ws = true ↔ ∃ e ∈ ws, wildcardMatch n e.1 = true := by
  induction ws with
  | nil => simp [wildcardFound]
  | cons e rest ih =>
    by_cases h : wildcardMatch n e.1 = true
    · simp [wildcardFound, h]
    · simp only [Bool.not_eq_true] at h
      simp [wildcardFound, h, ih]

theorem starDot_isPrefixOf (xs : Str) :
    List.isPrefixOf ('*' :: '.' :: []) ('*' :: '.' :: xs) = true := by
  simp [List.isPrefixOf]

theorem endsWithChar_concat (c : Char) (xs : Str) :
    endsWithChar c (xs ++ [c]) = true := by
  unfold endsWithChar
  rw [List.reverse_append]
  simp

theorem dropWhile_head_false {p : Char → Bool} {l t : Str} {a : Char}
    (h : l.dropWhile p = a :: t) : p a = false := by
  induction l with
  | nil => simp [List.dropWhile] at h
  | cons x xs ih =>
    rw [List.dropWhile] at h
    cases hp : p x with
    | true =>
      simp only [hp] at h
      exact ih h
    | false =>
      simp only [hp] at h
      injection h with h1 h2
      exact h1 ▸ hp

theorem endsWithChar_trimEndDots (s : Str) :
    endsWithChar '.' (trimEndDots s) = false := by
  unfold endsWithChar trimEndDots
  rw [List.reverse_reverse]
  cases heq : s.reverse.dropWhile (fun c => c = '.') with
  | nil => rfl
  | cons a t =>
    have ha := dropWhile_head_false heq
    simpa using ha

theorem char_toNat_ofNat_valid {n : Nat} (h : n.isValidChar) :
    (Char.ofNat n).toNat = n := by
  unfold Char.ofNat
  rw [dif_pos h]
  rfl

theorem charToLower_toNat (c : Char) :
    (Char.toLower c).toNat =
      if c.toNat ≥ 65 ∧ c.toNat ≤ 90 then c.toNat + 32 else c.toNat := by
  unfold Char.toLower
  by_cases h : c.toNat ≥ 65 ∧ c.toNat ≤ 90
  · rw [if_pos h, if_pos h]
    exact char_toNat_ofNat_valid (Or.inl (by omega))
  · rw [if_neg h, if_neg h]

theorem charToLower_not_upper (c : Char) :
    ¬((Char.toLower c).toNat ≥ 65 ∧ (Char.toLower c).toNat ≤ 90) := by
  rw [charToLower_toNat]
  by_cases h : c.toNat ≥ 65 ∧ c.toNat ≤ 90
  · rw [if_pos h]
    omega
  · rw [if_neg h]
    omega

theorem charToLower_eq_self {c : Char}
    (h : ¬(c.toNat ≥ 65 ∧ c.toNat ≤ 90)) : Char.toLower c = c := by
  show (if c.toNat ≥ 65 ∧ c.toNat ≤ 90 then Char.ofNat (c.toNat + 32) else c) = c
  rw [if_neg h]

theorem charToLower_idem (c : Char) :
    Char.toLower (Char.toLower c) = Char.toLower c :=
  charToLower_eq_self (charToLower_not_upper c)

theorem strLower_append (a b : Str) :
    strLower (a ++ b) = strLower a ++ strLower b := by
  simp [strLower]

theorem strLower_idem (s : Str) : strLower (strLower s) = strLower s := by
  simp only [strLower, List.map_map]
  apply List.map_congr_left
  intro c _
  exact charToLower_idem c

theorem leaseWildcard_starts (f : Str) :
    List.isPrefixOf ('*' :: '.' :: []) (leaseWildcard f) = true := by
  rw [leaseWildcard]
  exact starDot_isPrefixOf _

theorem leaseWildcard_ends (f : Str) :
    endsWithChar '.' (leaseWildcard f) = true := by
  rw [leaseWildcard]
  have : '*' :: '.' :: (trimEndDots f ++ ['.']) =
      ('*' :: '.' :: trimEndDots f) ++ ['.'] := by simp
  rw [this]
  exact endsWithChar_concat '.' _

theorem leaseWildcard_wildShape (f : Str) (ip : Ipv4) :
    wildShape (leaseWildcard f, ip) :=
  ⟨leaseWildcard_starts f, leaseWildcard_ends f⟩

theorem dhcpFold_wildcards_inv (suffix : Str) (leases : List DhcpLease)
    (temp : List (Str × List Ipv4)) (ws : List (Str × Ipv4))
    (hws : ∀ e ∈ ws, wildShape e) :
    ∀ e ∈ (dhcpFold suffix leases temp ws).2, wildShape e := by
  induction leases generalizing temp ws with
  | nil => simpa [dhcpFold] using hws
  | cons lease rest ih =>
    rw [dhcpFold]
    by_cases hh : lease.hostname = []
    · rw [if_pos hh]
      exact ih temp ws hws
    · rw [if_neg hh]
      apply ih
      intro e he
      rcases List.mem_append.mp he with he | he
      · exact hws e he
      · rw [List.mem_singleton] at he
        exact he ▸ leaseWildcard_wildShape _ _

theorem hostsProcessNames_wildcards_inv (ip : Ipv4) (names : List Str)
    (temp : List (Str × List Ipv4)) (ws : List (Str × Ipv4))
    (hws : ∀ e ∈ ws, wildShape e) :
    ∀ e ∈ (hostsProcessNames ip names temp ws).2, wildShape e := by
  induction names generalizing temp ws with
  | nil => simpa [hostsProcessNames] using hws
  | cons h rest ih =>
    rw [hostsProcessNames]
    by_cases hc : startsWithChar '#' h = true
    · rw [if_pos hc]
      exact hws
    · rw [if_neg hc]
      by_cases hw : List.isPrefixOf ('*' :: '.' :: [])
          (if endsWithChar '.' (strLower h) = true then strLower h
           else strLower h ++ ['.']) = true
      · rw [if_pos hw]
        apply ih
        intro e he
        rcases List.mem_append.mp he with he | he
        · exact hws e he
        · rw [List.mem_singleton] at he
          subst he
          refine ⟨hw, ?_⟩
          by_cases he2 : endsWithChar '.' (strLower h) = true
          · rw [if_pos he2]
            exact he2
          · rw [if_neg he2]
            exact endsWithChar_concat '.' _
      · rw [if_neg hw]
        apply ih
        exact hws

theorem hostsFold_wildcards_inv (parseIp : Str → Option Ipv4) (ls : List Str)
    (temp : List (Str × List Ipv4)) (ws : List (Str × Ipv4))
    (hws : ∀ e ∈ ws, wildShape e) :
    ∀ e ∈ (hostsFold parseIp ls temp ws).2, wildShape e := by
  induction ls generalizing temp ws with
  | nil => simpa [hostsFold] using hws
  | cons line rest ih =>
    rw [hostsFold]
    by_cases hskip : (trimStr line = [] || startsWithChar '#' (trimStr line)) = true
    · rw [if_pos hskip]
      exact ih temp ws hws
    · rw [if_neg hskip]
      split
      · split
        · exact ih _ _ (hostsProcessNames_wildcards_inv _ _ temp ws hws)
        · exact ih temp ws hws
      · exact ih temp ws hws

theorem dhcpSection_wildcards_inv (parseDhcp : Str → Except String DhcpData)
    (d : FileState) (suffix : Str)
    (tw : List (Str × List Ipv4) × List (Str × Ipv4))
    (hok : dhcpSection parseDhcp d suffix = Except.ok tw) :
    ∀ e ∈ tw.2, wildShape e := by
  cases d with
  | absent =>
    simp only [dhcpSection, fileExists, Bool.false_eq_true, if_false,
      Except.ok.injEq] at hok
    subst hok
    intro e he
    simp at he
  | unreadable =>
    simp only [dhcpSection, fileExists, if_true, readToString] at hok
    cases hok
  | content s0 =>
    simp only [dhcpSection, fileExists, if_true, readToString] at hok
    by_cases htrim : trimStr s0 = []
    · rw [if_pos htrim] at hok
      injection hok with hok
      subst hok
      intro e he
      simp at he
    · rw [if_neg htrim] at hok
      cases hp : parseDhcp s0 with
      | ok data =>
        rw [hp] at hok
        injection hok with hok
        subst hok
        apply dhcpFold_wildcards_inv
        intro e he
        simp at he
      | error e0 =>
        rw [hp] at hok
        injection hok with hok
        subst hok
        intro e he
        simp at he

theorem load_records_wildcards_inv (parseDhcp : Str → Except String DhcpData)
    (parseIp : Str → Option Ipv4) (d h : FileState) (suffix : Str)
    (c : DnsCache) (hok : load_records parseDhcp parseIp d h suffix = Except.ok c) :
    ∀ e ∈ c.wildcards, wildShape e := by
  unfold load_records at hok
  cases hds : dhcpSection parseDhcp d suffix with
  | error e0 =>
    rw [hds] at hok
    cases hok
  | ok tw =>
    rw [hds] at hok
    have htw := dhcpSection_wildcards_inv parseDhcp d suffix tw hds
    cases h with
    | absent =>
      simp only [hostsSection, fileExists, Bool.false_eq_true, if_false,
        Except.ok.injEq] at hok
      subst hok
      exact htw
    | unreadable =>
      simp only [hostsSection, fileExists, if_true, readToString] at hok
      cases hok
    | content s0 =>
      simp only [hostsSection, fileExists, if_true, readToString] at hok
      injection hok with hok
      subst hok
      exact hostsFold_wildcards_inv parseIp _ tw.1 tw.2 htw

theorem wildcardIps_eq_noguard (n : Str) (ws : List (Str × Ipv4))
    (h : ∀ e ∈ ws, List.isPrefixOf ('*' :: '.' :: []) e.1 = true) :
    wildcardIps n ws = wildcardIpsNoGuard n ws := by
  induction ws with
  | nil => rfl
  | cons e rest ih =>
    have he := h e (List.mem_cons_self e rest)
    have hrest := fun x hx => h x (List.mem_cons_of_mem e hx)
    rw [wildcardIps, wildcardIpsNoGuard, wildcardMatch, if_pos he, ih hrest]

theorem handleQuestion_A (q : Query) (cache : DnsCache)
    (hA : q.qtype = RecordType.A) :
    handleQuestion q cache = resolveA q.name (strLower q.name) cache := by
  rw [handleQuestion, if_pos hA]

theorem handleQuestion_other (q : Query) (cache : DnsCache)
    (hNA : q.qtype ≠ RecordType.A) :
    handleQuestion q cache = resolveOther (strLower q.name) cache := by
  rw [handleQuestion, if_neg hNA]

theorem resolveA_nil (name lookup : Str) (cache : DnsCache)
    (h : foundIps lookup cache = []) :
    resolveA name lookup cache = (ResponseCode.NXDomain, []) := by
  rw [resolveA]
  rw [if_pos h]

theorem resolveA_ne_nil (name lookup : Str) (cache : DnsCache)
    (h : foundIps lookup cache ≠ []) :
    resolveA name lookup cache =
      (ResponseCode.NoError,
        (dedupAdjacent (sortIps (foundIps lookup cache))).map
          (fun ip => { name := name, rtype := RecordType.A, ttl := 60, rdata := ip })) := by
  rw [resolveA]
  rw [if_neg h]

theorem resolveA_answers_rdata (name lookup : Str) (cache : DnsCache)
    (h : foundIps lookup cache ≠ []) :
    (resolveA name lookup cache).2.map DnsRecord.rdata =
      dedupAdjacent (sortIps (foundIps lookup cache)) := by
  rw [resolveA_ne_nil name lookup cache h]
  simp only [List.map_map]
  show List.map id (dedupAdjacent (sortIps (foundIps lookup cache))) =
    dedupAdjacent (sortIps (foundIps lookup cache))
  exact List.map_id _

theorem dhcpSection_ok_of_readable (parseDhcp : Str → Except String DhcpData)
    (d : FileState) (suffix : Str) (hd : d ≠ FileState.unreadable) :
    ∃ tw, dhcpSection parseDhcp d suffix = Except.ok tw := by
  cases d with
  | absent => exact ⟨([], []), rfl⟩
  | unreadable => exact absurd rfl hd
  | content c1 =>
    simp only [dhcpSection, fileExists, readToString, if_true]
    by_cases ht : trimStr c1 = []
    · rw [if_pos ht]
      exact ⟨([], []), rfl⟩
    · rw [if_neg ht]
      cases hp : parseDhcp c1 with
      | ok data => exact ⟨_, rfl⟩
      | error e1 => exact ⟨([], []), rfl⟩

theorem hostsSection_ok_of_readable (parseIp : Str → Option Ipv4)
    (h : FileState) (temp : List (Str × List Ipv4)) (ws : List (Str × Ipv4))
    (hh : h ≠ FileState.unreadable) :
    ∃ c, hostsSection parseIp h temp ws = Except.ok c := by
  cases h with
  | absent => exact ⟨finalize temp ws, rfl⟩
  | unreadable => exact absurd rfl hh
  | content s0 => exact ⟨_, rfl⟩

theorem dhcpSection_parse_error_eq_absent (parseDhcp : Str → Except String DhcpData)
    (suffix : Str) (c0 : Str) (e0 : String)
    (hpc : parseDhcp c0 = Except.error e0) :
    dhcpSection parseDhcp (FileState.content c0) suffix =
      dhcpSection parseDhcp FileState.absent suffix := by
  simp only [dhcpSection, fileExists, readToString, if_true]
  by_cases ht : trimStr c0 = []
  · rw [if_pos ht]
    rfl
  · rw [if_neg ht, hpc]
    rfl

/-! Claim theorems. -/

/-- Claim C9: for every incoming message carrying at least one question, only
the first question determines the resolution outcome and is echoed into the
response's question section; additional questions change nothing. -/
theorem C9_first_question_only (i o : Nat) (rdf : Bool) (q : Query)
    (qs : List Query) (cache : DnsCache) :
    handle_query { id := i, opcode := o, rd := rdf, queries := q :: qs } cache =
      handle_query { id := i, opcode := o, rd := rdf, queries := [q] } cache ∧
    (handle_query { id := i, opcode := o, rd := rdf, queries := q :: qs } cache).queries
      = [q] :=
  ⟨rfl, rfl⟩

/-- Claim C1 as stated is false on the code: with configured TTL 300, the
answers of a successful `A` resolution do not carry the configured TTL. -/
theorem C1_counterexample :
    cfgC1.ttl = 300 ∧
    (handleQuestion qHostA cacheHost).2 ≠ [] ∧
    ¬(∀ r ∈ (handleQuestion qHostA cacheHost).2, r.ttl = cfgC1.ttl) := by
  refine ⟨rfl, ?_, ?_⟩
  · decide
  · decide

/-- Claim C1, amended: each emitted answer of an `A`-type resolution is an
address record over the original queried name carrying the literal TTL 60,
independent of the configuration's `ttl` field. -/
theorem C1_fixed_ttl (q : Query) (cache : DnsCache)
    (hA : q.qtype = RecordType.A) :
    ∀ r ∈ (handleQuestion q cache).2,
      r.name = q.name ∧ r.rtype = RecordType.A ∧ r.ttl = 60 := by
  intro r hr
  rw [handleQuestion_A q cache hA] at hr
  by_cases h : foundIps (strLower q.name) cache = []
  · rw [resolveA_nil _ _ _ h] at hr
    simp at hr
  · rw [resolveA_ne_nil _ _ _ h] at hr
    simp only [List.mem_map] at hr
    obtain ⟨ip, _, hip⟩ := hr
    subst hip
    exact ⟨rfl, rfl, rfl⟩

/-- Witness for `C1_fixed_ttl` at a concrete query and store. -/
theorem C1_fixed_ttl_witness :
    qHostA.qtype = RecordType.A ∧
    ∀ r ∈ (handleQuestion qHostA cacheHost).2,
      r.name = qHostA.name ∧ r.rtype = RecordType.A ∧ r.ttl = 60 :=
  ⟨rfl, C1_fixed_ttl qHostA cacheHost rfl⟩

/-- Claim C2 as stated is false on the code: with a fallback address
configured, a no-match `A` query still yields `NXDomain` with no answers and
the fallback address appears nowhere in the outcome. -/
theorem C2_counterexample :
    cfgC2.fallback_ip = some fbIp ∧
    handleQuestion qNomatchA emptyCache = (ResponseCode.NXDomain, []) ∧
    ∀ r ∈ (handleQuestion qNomatchA emptyCache).2, r.rdata ≠ fbIp := by
  refine ⟨rfl, ?_, ?_⟩
  · decide
  · decide

/-- Claim C2, amended: the resolver never consults the configuration's
`fallback_ip`; an `A` query with an empty merged result list always yields
`NXDomain` with no answers. -/
theorem C2_no_fallback (q : Query) (cache : DnsCache)
    (hA : q.qtype = RecordType.A)
    (hnone : foundIps (strLower q.name) cache = []) :
    handleQuestion q cache = (ResponseCode.NXDomain, []) := by
  rw [handleQuestion_A q cache hA]
  exact resolveA_nil _ _ _ hnone

/-- Witness for `C2_no_fallback` at a concrete query and empty store. -/
theorem C2_no_fallback_witness :
    qNomatchA.qtype = RecordType.A ∧
    foundIps (strLower qNomatchA.name) emptyCache = [] ∧
    handleQuestion qNomatchA emptyCache = (ResponseCode.NXDomain, []) :=
  ⟨rfl, rfl, C2_no_fallback qNomatchA emptyCache rfl rfl⟩

/-- Claim C7: a lease's wildcard contribution is the two characters `*` `.`
followed by the domain with its trailing dots stripped, followed by exactly
one final dot (so the body between the lead and the final dot never ends in
a dot); in particular domain `printer.lan.` yields the pattern
`*.printer.lan.`. -/
theorem C7_wildcard_pattern_shape (d : Str) :
    leaseWildcard d = ('*' :: '.' :: []) ++ (trimEndDots d ++ ['.']) ∧
    List.isPrefixOf ('*' :: '.' :: []) (leaseWildcard d) = true ∧
    endsWithChar '.' (leaseWildcard d) = true ∧
    endsWithChar '.' (trimEndDots d) = false ∧
    leaseWildcard printerLanDot = starPrinterLanDot :=
  ⟨rfl, leaseWildcard_starts d, leaseWildcard_ends d,
    endsWithChar_trimEndDots d, by decide⟩

/-- Claim C3: for a wildcard entry whose pattern is the two characters `*`
`.` followed by `root`, the per-entry test holds exactly when the normalized
query name ends with `root` and is strictly longer; the entry's address is
appended to the wildcard result list exactly under that condition; the bare
apex never matches its own wildcard, and, absent any other record, the apex
query yields `NXDomain` with no answers. -/
theorem C3_wildcard_strict_suffix (n root : Str) (ip : Ipv4)
    (ws : List (Str × Ipv4)) (hnorm : strLower root = root) :
    (wildcardMatch n ('*' :: '.' :: root) =
      (root.isSuffixOf n && decide (root.length < n.length))) ∧
    (wildcardIps n (('*' :: '.' :: root, ip) :: ws) =
      if root.isSuffixOf n = true ∧ root.length < n.length
      then ip :: wildcardIps n ws else wildcardIps n ws) ∧
    wildcardMatch root ('*' :: '.' :: root) = false ∧
    handleQuestion { name := root, qtype := RecordType.A }
        { exact_matches := [], wildcards := [('*' :: '.' :: root, ip)] } =
      (ResponseCode.NXDomain, []) := by
  have h1 : wildcardMatch n ('*' :: '.' :: root) =
      (root.isSuffixOf n && decide (root.length < n.length)) := by
    rw [wildcardMatch, if_pos (starDot_isPrefixOf root)]
    rfl
  have h3 : wildcardMatch root ('*' :: '.' :: root) = false := by
    rw [wildcardMatch, if_pos (starDot_isPrefixOf root)]
    show (root.isSuffixOf root && decide (root.length < root.length)) = false
    simp
  have h2 : wildcardIps n (('*' :: '.' :: root, ip) :: ws) =
      if root.isSuffixOf n = true ∧ root.length < n.length
      then ip :: wildcardIps n ws else wildcardIps n ws := by
    rw [wildcardIps]
    apply if_congr _ rfl rfl
    rw [h1]
    rw [Bool.and_eq_true, decide_eq_true_eq]
  have h4 : handleQuestion { name := root, qtype := RecordType.A }
      { exact_matches := [], wildcards := [('*' :: '.' :: root, ip)] } =
      (ResponseCode.NXDomain, []) := by
    rw [handleQuestion_A _ _ rfl]
    apply resolveA_nil
    show foundIps (strLower root) _ = []
    rw [hnorm]
    rw [foundIps]
    have hwc : wildcardIps root [('*' :: '.' :: root, ip)] = [] := by
      rw [wildcardIps]
      rw [h3]
      rfl
    rw [hwc]
    rfl
  exact ⟨h1, h2, h3, h4⟩

/-- Witness for `C3_wildcard_strict_suffix` at root `example.com.`, query
name `foo.example.com.` and a store holding only that wildcard. -/
theorem C3_wildcard_strict_suffix_witness :
    strLower exampleComDot = exampleComDot ∧
    ((wildcardMatch fooExampleComDot ('*' :: '.' :: exampleComDot) =
      (exampleComDot.isSuffixOf fooExampleComDot &&
        decide (exampleComDot.length < fooExampleComDot.length))) ∧
    (wildcardIps fooExampleComDot (('*' :: '.' :: exampleComDot, ipWild) :: []) =
      if exampleComDot.isSuffixOf fooExampleComDot = true ∧
          exampleComDot.length < fooExampleComDot.length
      then ipWild :: wildcardIps fooExampleComDot [] else wildcardIps fooExampleComDot []) ∧
    wildcardMatch exampleComDot ('*' :: '.' :: exampleComDot) = false ∧
    handleQuestion { name := exampleComDot, qtype := RecordType.A }
        { exact_matches := [], wildcards := [('*' :: '.' :: exampleComDot, ipWild)] } =
      (ResponseCode.NXDomain, [])) :=
  ⟨by decide, C3_wildcard_strict_suffix fooExampleComDot exampleComDot ipWild [] (by decide)⟩

/-- Claim C4: for an `A`-type query, an empty merged exact-plus-wildcard
result list yields `NXDomain` with no answers; a non-empty one yields
`NoError` with the merged list deduplicated (no duplicate addresses) and
sorted in strictly ascending numeric IPv4 order, containing exactly the
merged addresses. -/
theorem C4_dedup_sort (q : Query) (cache : DnsCache)
    (hA : q.qtype = RecordType.A) :
    (foundIps (strLower q.name) cache = [] →
      handleQuestion q cache = (ResponseCode.NXDomain, [])) ∧
    (foundIps (strLower q.name) cache ≠ [] →
      (handleQuestion q cache).1 = ResponseCode.NoError ∧
      List.Sorted (· < ·) ((handleQuestion q cache).2.map DnsRecord.rdata) ∧
      ((handleQuestion q cache).2.map DnsRecord.rdata).Nodup ∧
      (∀ x : Ipv4, x ∈ (handleQuestion q cache).2.map DnsRecord.rdata ↔
        x ∈ foundIps (strLower q.name) cache)) := by
  constructor
  · intro h
    rw [handleQuestion_A q cache hA]
    exact resolveA_nil _ _ _ h
  · intro h
    rw [handleQuestion_A q cache hA]
    have hrd := resolveA_answers_rdata q.name (strLower q.name) cache h
    have hsorted : List.Sorted (· < ·)
        (dedupAdjacent (sortIps (foundIps (strLower q.name) cache))) :=
      sorted_lt_dedupAdjacent _ (sorted_sortIps _)
    refine ⟨?_, ?_, ?_, ?_⟩
    · rw [resolveA_ne_nil _ _ _ h]
    · rw [hrd]
      exact hsorted
    · rw [hrd]
      exact hsorted.nodup
    · intro x
      rw [hrd, mem_dedupAdjacent, mem_sortIps]

/-- Witness for `C4_dedup_sort` at a concrete query and store. -/
theorem C4_dedup_sort_witness :
    qHostA.qtype = RecordType.A ∧
    ((foundIps (strLower qHostA.name) cacheHost = [] →
      handleQuestion qHostA cacheHost = (ResponseCode.NXDomain, [])) ∧
    (foundIps (strLower qHostA.name) cacheHost ≠ [] →
      (handleQuestion qHostA cacheHost).1 = ResponseCode.NoError ∧
      List.Sorted (· < ·) ((handleQuestion qHostA cacheHost).2.map DnsRecord.rdata) ∧
      ((handleQuestion qHostA cacheHost).2.map DnsRecord.rdata).Nodup ∧
      (∀ x : Ipv4, x ∈ (handleQuestion qHostA cacheHost).2.map DnsRecord.rdata ↔
        x ∈ foundIps (strLower qHostA.name) cacheHost))) :=
  ⟨rfl, C4_dedup_sort qHostA cacheHost rfl⟩

/-- Claim C5: a query of a non-address type always carries zero answers, and
its response code is `NoError` exactly when the normalized name is an exact
key or some wildcard entry matches under the strict-suffix rule, `NXDomain`
exactly otherwise. -/
theorem C5_other_types_existence (q : Query) (cache : DnsCache)
    (hNA : q.qtype ≠ RecordType.A) :
    (handleQuestion q cache).2 = [] ∧
    ((handleQuestion q cache).1 = ResponseCode.NoError ↔
      ((lookupExact cache.exact_matches (strLower q.name)).isSome = true ∨
        ∃ e ∈ cache.wildcards, wildcardMatch (strLower q.name) e.1 = true)) ∧
    ((handleQuestion q cache).1 = ResponseCode.NXDomain ↔
      ¬((lookupExact cache.exact_matches (strLower q.name)).isSome = true ∨
        ∃ e ∈ cache.wildcards, wildcardMatch (strLower q.name) e.1 = true)) := by
  rw [handleQuestion_other q cache hNA, resolveOther]
  by_cases h1 : (lookupExact cache.exact_matches (strLower q.name)).isSome = true
  · rw [if_pos h1]
    refine ⟨rfl, ?_, ?_⟩
    · simp [h1]
    · simp [h1]
  · rw [if_neg h1]
    by_cases h2 : wildcardFound (strLower q.name) cache.wildcards = true
    · rw [if_pos h2]
      have hex := (wildcardFound_iff _ _).mp h2
      refine ⟨rfl, ?_, ?_⟩
      · simp [hex]
      · simp [hex]
    · rw [if_neg h2]
      have hnex : ¬∃ e ∈ cache.wildcards, wildcardMatch (strLower q.name) e.1 = true := by
        rw [← wildcardFound_iff]
        exact h2
      refine ⟨rfl, ?_, ?_⟩
      · constructor
        · intro hc
          cases hc
        · intro hc
          rcases hc with hc | hc
          · exact absurd hc h1
          · exact absurd hc hnex
      · constructor
        · intro _ hc
          rcases hc with hc | hc
          · exact absurd hc h1
          · exact absurd hc hnex
        · intro _
          rfl

/-- Witness for `C5_other_types_existence` at a concrete `AAAA` query. -/
theorem C5_other_types_existence_witness :
    qHostAAAA.qtype ≠ RecordType.A ∧
    ((handleQuestion qHostAAAA cacheHost).2 = [] ∧
    ((handleQuestion qHostAAAA cacheHost).1 = ResponseCode.NoError ↔
      ((lookupExact cacheHost.exact_matches (strLower qHostAAAA.name)).isSome = true ∨
        ∃ e ∈ cacheHost.wildcards, wildcardMatch (strLower qHostAAAA.name) e.1 = true)) ∧
    ((handleQuestion qHostAAAA cacheHost).1 = ResponseCode.NXDomain ↔
      ¬((lookupExact cacheHost.exact_matches (strLower qHostAAAA.name)).isSome = true ∨
        ∃ e ∈ cacheHost.wildcards, wildcardMatch (strLower qHostAAAA.name) e.1 = true))) :=
  ⟨by decide, C5_other_types_existence qHostAAAA cacheHost (by decide)⟩

/-- Claim C6 as stated is false on the code: for the uppercase suffix `LAN`
the constructed exact domain is `printer.lan.`, which is not
`lowercase(hostname) + normalized_suffix + "."` (that would keep the suffix
uppercase), because the code lowercases the whole concatenation. -/
theorem C6_counterexample :
    leaseFqdn printerStr lanUpper = printerLanDot ∧
    leaseFqdn printerStr lanUpper ≠
      strLower printerStr ++ safe_suffix lanUpper ++ ['.'] := by
  constructor
  · decide
  · decide

/-- Claim C6, amended: the constructed exact domain is the lowercase of the
whole concatenation — `lowercase(hostname) ++ lowercase(normalized_suffix)
++ "."` — and it is lowercase-invariant and dot-terminated. -/
theorem C6_fqdn_construction (hostname suffix : Str) (_hh : hostname ≠ []) :
    leaseFqdn hostname suffix =
      strLower hostname ++ strLower (safe_suffix suffix) ++ ['.'] ∧
    strLower (leaseFqdn hostname suffix) = leaseFqdn hostname suffix ∧
    endsWithChar '.' (leaseFqdn hostname suffix) = true := by
  have hdot : strLower ['.'] = ['.'] := by decide
  have h1 : leaseFqdn hostname suffix =
      strLower hostname ++ strLower (safe_suffix suffix) ++ ['.'] := by
    rw [leaseFqdn, strLower_append, strLower_append, hdot]
  refine ⟨h1, ?_, ?_⟩
  · rw [leaseFqdn, strLower_idem]
  · rw [h1]
    exact endsWithChar_concat '.' _

/-- Witness for `C6_fqdn_construction` at hostname `printer`, suffix `LAN`. -/
theorem C6_fqdn_construction_witness :
    printerStr ≠ [] ∧
    (leaseFqdn printerStr lanUpper =
      strLower printerStr ++ strLower (safe_suffix lanUpper) ++ ['.'] ∧
    strLower (leaseFqdn printerStr lanUpper) = leaseFqdn printerStr lanUpper ∧
    endsWithChar '.' (leaseFqdn printerStr lanUpper) = true) :=
  ⟨by decide, C6_fqdn_construction printerStr lanUpper (by decide)⟩

/-- Claim C8 as stated is false on the code: a DHCP source file that exists
but cannot be read as a string makes `load_records` return an error instead
of an empty contribution. -/
theorem C8_counterexample :
    load_records parseDhcpNone parseIpNone FileState.unreadable FileState.absent [] =
      Except.error dhcpReadErr ∧
    exceptIsOk (load_records parseDhcpNone parseIpNone FileState.unreadable
      FileState.absent []) = false := by
  constructor
  · rfl
  · rfl

/-- Claim C8, amended: when each source file is absent or readable,
`load_records` never returns an error — a missing or JSON-unparseable DHCP
file contributes nothing and the result is built from the hosts source alone
(a parse-failing DHCP file gives exactly the same result as an absent one);
only a present file whose contents cannot be read as a string produces an
error return. -/
theorem C8_loader_non_fatal (parseDhcp : Str → Except String DhcpData)
    (parseIp : Str → Option Ipv4) (d h : FileState) (suffix : Str)
    (c0 : Str) (e0 : String)
    (hd : d ≠ FileState.unreadable) (hh : h ≠ FileState.unreadable)
    (hpc : parseDhcp c0 = Except.error e0) :
    exceptIsOk (load_records parseDhcp parseIp d h suffix) = true ∧
    load_records parseDhcp parseIp (FileState.content c0) h suffix =
      load_records parseDhcp parseIp FileState.absent h suffix := by
  constructor
  · obtain ⟨tw, htw⟩ := dhcpSection_ok_of_readable parseDhcp d suffix hd
    obtain ⟨c1, hc1⟩ := hostsSection_ok_of_readable parseIp h tw.1 tw.2 hh
    rw [load_records, htw]
    show exceptIsOk (hostsSection parseIp h tw.1 tw.2) = true
    rw [hc1]
    rfl
  · rw [load_records, load_records,
      dhcpSection_parse_error_eq_absent parseDhcp suffix c0 e0 hpc]

/-- Witness for `C8_loader_non_fatal` with both files absent and a decoder
stub that always fails. -/
theorem C8_loader_non_fatal_witness :
    FileState.absent ≠ FileState.unreadable ∧
    parseDhcpNone [] = Except.error readErrMsg ∧
    (exceptIsOk (load_records parseDhcpNone parseIpNone FileState.absent
        FileState.absent []) = true ∧
    load_records parseDhcpNone parseIpNone (FileState.content []) FileState.absent [] =
      load_records parseDhcpNone parseIpNone FileState.absent FileState.absent []) :=
  ⟨by decide, rfl,
    C8_loader_non_fatal parseDhcpNone parseIpNone FileState.absent FileState.absent
      [] [] readErrMsg (by decide) (by decide) rfl⟩

/-- Claim C10: every wildcard entry of a store built by `load_records` has a
pattern led by `*` `.` and ended by a dot, so the resolver's
`starts_with("*.")` guard never excludes a store-built entry: the guarded
wildcard loop agrees with the guard-free one on every query name. -/
theorem C10_wildcard_invariant (parseDhcp : Str → Except String DhcpData)
    (parseIp : Str → Option Ipv4) (d h : FileState) (suffix : Str)
    (c : DnsCache) (hok : load_records parseDhcp parseIp d h suffix = Except.ok c) :
    (∀ e ∈ c.wildcards, wildShape e) ∧
    (∀ n : Str, wildcardIps n c.wildcards = wildcardIpsNoGuard n c.wildcards) := by
  have hw := load_records_wildcards_inv parseDhcp parseIp d h suffix c hok
  exact ⟨hw, fun n => wildcardIps_eq_noguard n c.wildcards (fun e he => (hw e he).1)⟩

/-- Witness for `C10_wildcard_invariant` on a store built from one hosts
line holding a wildcard entry. -/
theorem C10_wildcard_invariant_witness :
    load_records parseDhcpNone parseIpOne FileState.absent
        (FileState.content hostsLineWild) [] = Except.ok cacheWildOnly ∧
    ((∀ e ∈ cacheWildOnly.wildcards, wildShape e) ∧
    (∀ n : Str, wildcardIps n cacheWildOnly.wildcards =
      wildcardIpsNoGuard n cacheWildOnly.wildcards)) :=
  ⟨rfl,
    C10_wildcard_invariant parseDhcpNone parseIpOne FileState.absent
      (FileState.content hostsLineWild) [] cacheWildOnly rfl⟩
